import Mathlib

/-!
Verification development for the audio splitting subsystem of the repository
(`src/audio/audio_splitter.py`, `src/audio/audio_converter.py`,
`src/audio/audio_utils.py`).  Python floats are modelled as exact rationals,
Python strings as Lean strings (operating on their character lists), and
side-effecting collaborators (file system, subprocesses, thread scheduling)
as explicit oracle inputs or transition systems.
-/

namespace AudioApp

/-- Model of Python `str.strip()`: drop whitespace from both ends. -/
def pyStrip (s : String) : String :=
  ⟨((s.data.dropWhile Char.isWhitespace).reverse.dropWhile Char.isWhitespace).reverse⟩

/-- One raw or planned transcript segment, the dict
`{"start": float, "end": float, "text": str, "words": list}` used by
`AudioSplitter.prepare_segments`.  The `end` key is called `stop` because
`end` is a Lean keyword; `words` entries are opaque payloads. -/
structure Seg where
  start : ℚ
  stop : ℚ
  text : String
  words : List String
deriving DecidableEq, Repr

/-- Duration `end - start` of a segment. -/
def segDur (s : Seg) : ℚ := s.stop - s.start

/-- The terminal punctuation characters tested by `prepare_segments`:
`[".", "?", "!", "。", "？", "！"]`. -/
def sentenceEndChars : List Char := ['.', '?', '!', '。', '？', '！']

/-- Model of the sentence-end test in `prepare_segments`:
`last_char = text.strip()[-1] if text.strip() else ""` followed by
`last_char in [".", "?", "!", "。", "？", "！"]`. -/
def isSentenceEnd (s : String) : Bool :=
  match (pyStrip s).data.getLast? with
  | some c => sentenceEndChars.contains c
  | none => false

/-- The merge condition of `prepare_segments`, line 239 of
`audio_splitter.py`: the working buffer `t` absorbs the incoming segment
`seg` when `temp_duration + duration <= max_length` and
`(not preserve_sentences or is_sentence_end)`. -/
def mergeCond (maxLength : ℚ) (preserveSentences : Bool) (t seg : Seg) : Bool :=
  decide (segDur t + segDur seg ≤ maxLength) &&
    (!preserveSentences || isSentenceEnd t.text)

/-- A fresh working buffer built from an incoming raw segment
(`prepare_segments` lines 223-229 and 247-252): the text is stripped. -/
def fromRaw (seg : Seg) : Seg :=
  { start := seg.start, stop := seg.stop, text := pyStrip seg.text,
    words := seg.words }

/-- Merging an incoming segment into the working buffer
(`prepare_segments` lines 240-243). -/
def mergeSeg (t seg : Seg) : Seg :=
  { t with stop := seg.stop, text := t.text ++ " " ++ pyStrip seg.text,
           words := t.words ++ seg.words }

/-- Processing of one raw segment by the loop body of `prepare_segments`
(lines 213-258): returns the segments emitted by this iteration and the new
working buffer.  After the merge-or-emit choice, a buffer whose duration
reaches `max_length` is emitted immediately (lines 255-258). -/
def prepStep (maxLength : ℚ) (preserveSentences : Bool)
    (temp : Option Seg) (seg : Seg) : List Seg × Option Seg :=
  let p :=
    match temp with
    | none => (([] : List Seg), fromRaw seg)
    | some t =>
        if mergeCond maxLength preserveSentences t seg then ([], mergeSeg t seg)
        else ([t], fromRaw seg)
  if maxLength ≤ segDur p.2 then (p.1 ++ [p.2], none) else (p.1, some p.2)

/-- The loop of `prepare_segments` followed by the final flush
(lines 260-265): the final working buffer is appended only when its duration
is at least `min_length` or nothing was emitted before it.  The `emitted`
flag records whether `processed_segments` is nonempty so far. -/
def prepGo (minLength maxLength : ℚ) (preserveSentences : Bool) :
    Bool → Option Seg → List Seg → List Seg
  | emitted, temp, [] =>
    (match temp with
     | none => []
     | some t =>
        if minLength ≤ segDur t ∨ emitted = false then [t] else [])
  | emitted, temp, seg :: rest =>
    let p := prepStep maxLength preserveSentences temp seg
    p.1 ++ prepGo minLength maxLength preserveSentences
      (emitted || !p.1.isEmpty) p.2 rest

/-- Model of `AudioSplitter.prepare_segments` (lines 188-268): a single pass
over the raw segments with a working buffer.  On the empty input the
function returns early with the empty list, which coincides with the loop
doing nothing. -/
def prepareSegments (segments : List Seg) (minLength maxLength : ℚ)
    (preserveSentences : Bool) : List Seg :=
  prepGo minLength maxLength preserveSentences false none segments

/-- No adjacent pair of an already-planned list may merge on re-planning:
either the first of the pair has reached `max_length` (it is then emitted
before the pair is ever considered) or the merge condition fails. -/
def chainNoMerge (maxLength : ℚ) (preserveSentences : Bool) :
    List Seg → Bool
  | [] => true
  | [_] => true
  | a :: b :: rest =>
    (decide (maxLength ≤ segDur a) ||
        !(mergeCond maxLength preserveSentences a b)) &&
      chainNoMerge maxLength preserveSentences (b :: rest)

/-- The last planned segment survives the final flush: it reaches
`max_length` (emitted inside the loop), or reaches `min_length`, or is the
only segment. -/
def lastOkB (minLength maxLength : ℚ) (p : List Seg) : Bool :=
  match p.getLast? with
  | none => true
  | some z =>
    decide (maxLength ≤ segDur z) || decide (minLength ≤ segDur z) ||
      decide (p.length = 1)

/-- The boundary conditions of C9 under which an already-planned list is a
fixed point of `prepare_segments`: texts already stripped, no adjacent pair
merges, and the last segment survives the final flush. -/
def boundaryOk (minLength maxLength : ℚ) (preserveSentences : Bool)
    (p : List Seg) : Bool :=
  p.all (fun s => pyStrip s.text == s.text) &&
    chainNoMerge maxLength preserveSentences p && lastOkB minLength maxLength p

/-- Model of the `SegmentOptions` dataclass of `audio_splitter.py`: start
and end times in seconds plus the label text (`end` is called `stop`). -/
structure SegOpt where
  start : ℚ
  stop : ℚ
  text : String
deriving DecidableEq, Repr

/-- Validation of one segment against the probed media duration,
`AudioSplitter.split` lines 607-622: a segment with `end <= start` is
skipped; when the probed duration is positive, a segment whose start is at
or past the duration is skipped, and an end past the duration is clipped
to the duration.  Skipping logs a warning and is never fatal to the batch,
which the total `Option` result reflects. -/
def validateOne (duration : ℚ) (s : SegOpt) : Option SegOpt :=
  if s.stop ≤ s.start then none
  else if 0 < duration then
    if duration ≤ s.start then none
    else if duration < s.stop then some { s with stop := duration }
    else some s
  else some s

/-- The list of valid (possibly clipped) segments kept by
`AudioSplitter.split`, in input order. -/
def validSegments (duration : ℚ) (segs : List SegOpt) : List SegOpt :=
  segs.filterMap (validateOne duration)

/-- Truncation toward zero, the behaviour of Python int() on a number. -/
def pyInt (q : ℚ) : ℤ := if 0 ≤ q then ⌊q⌋ else ⌈q⌉

/-- The per-process timeout of `_split_with_ffmpeg`, line 401 of
`audio_splitter.py`: `max(10, min(120, int(duration * 5)))` seconds. -/
def timeoutSeconds (duration : ℚ) : ℤ :=
  max 10 (min 120 (pyInt (duration * 5)))

/-- Outcome of one spawned ffmpeg process: it either completes within the
timeout with a return code and an output file size (0 when the file is
absent), or the wait times out. -/
inductive ProcOutcome where
  | completed (returncode : ℤ) (outputSize : ℕ)
  | timedOut
deriving DecidableEq, Repr

/-- Process-control events issued by `_split_with_ffmpeg` for one attempt,
in order. -/
inductive ProcEvent where
  | spawn
  | waitWithTimeout
  | terminate
  | graceWait
  | kill
deriving DecidableEq, Repr

/-- The process-control events of `_split_with_ffmpeg` (lines 387-422) as
a function of the process outcome: the process is spawned, waited on with
the computed timeout, and on expiry of the timeout killed immediately by
`process.kill()` in the `TimeoutExpired` handler. -/
def ffmpegEvents : ProcOutcome → List ProcEvent
  | .completed _ _ => [.spawn, .waitWithTimeout]
  | .timedOut => [.spawn, .waitWithTimeout, .kill]

/-- Result of `_split_with_ffmpeg` as a function of the process outcome
(lines 405-431): success requires return code 0 and an output file of at
least 100 bytes; a timed-out attempt always fails. -/
def ffmpegResult (o : ProcOutcome) : Bool :=
  match o with
  | .completed rc size => rc == 0 && decide (100 ≤ size)
  | .timedOut => false

/-- The three splitting backends of `_split_segment`. -/
inductive Backend where
  | ffmpeg
  | pydub
  | pyav
deriving DecidableEq, Repr

/-- The backend attempts made by `_split_segment` (lines 284-328 of
`audio_splitter.py`): ffmpeg first when available, then pydub, then PyAV
(only when available and the file extension is supported); the chain stops
at the first success, and a failed or timed-out ffmpeg attempt is never
retried. -/
def splitSegmentAttempts (ffmpegAvailable pyavAvailable extSupported : Bool)
    (ffmpegOutcome : ProcOutcome) (pydubOk : Bool) : List Backend :=
  if ffmpegAvailable then
    if ffmpegResult ffmpegOutcome then [.ffmpeg]
    else [.ffmpeg] ++
      (if pydubOk then [.pydub]
       else [.pydub] ++ (if pyavAvailable && extSupported then [.pyav] else []))
  else if pydubOk then [.pydub]
  else [.pydub] ++ (if pyavAvailable && extSupported then [.pyav] else [])

/-- Lifecycle phase of one encode job with respect to the ffmpeg
semaphore and its subprocess (`_split_with_ffmpeg`, lines 382-422): the
semaphore unit is held from `acquired` until the job leaves the
with-block (`done`), and the external process is alive exactly in phase
`spawned`. -/
inductive Phase where
  | idle
  | acquired
  | spawned
  | done
deriving DecidableEq, Repr

/-- Number of semaphore units currently held by the batch. -/
def holders (s : List Phase) : ℕ :=
  s.countP (fun p => p == Phase.acquired || p == Phase.spawned)

/-- Number of external ffmpeg processes currently alive. -/
def aliveProcs (s : List Phase) : ℕ :=
  s.countP (fun p => p == Phase.spawned)

/-- Interleaving semantics of a batch of jobs sharing `FFMPEG_SEMAPHORE`
with capacity `C`: a job acquires a unit only when fewer than `C` are held
(entering `with FFMPEG_SEMAPHORE`), spawns its process only while holding
a unit, and releases the unit when the attempt finishes on any exit path
(success, failure or timeout), the process being dead by then. -/
inductive GovStep (C : ℕ) : List Phase → List Phase → Prop
  | acquire (s : List Phase) (i : ℕ) :
      s[i]? = some Phase.idle → holders s < C →
      GovStep C s (s.set i Phase.acquired)
  | spawn (s : List Phase) (i : ℕ) :
      s[i]? = some Phase.acquired → GovStep C s (s.set i Phase.spawned)
  | finish (s : List Phase) (i : ℕ) :
      s[i]? = some Phase.spawned → GovStep C s (s.set i Phase.done)

/-- States reachable by a batch of `n` jobs from the all-idle start. -/
def GovReach (C n : ℕ) (s : List Phase) : Prop :=
  Relation.ReflTransGen (GovStep C) (List.replicate n Phase.idle) s

/-- Outcome of one `_extract_with_pyav` attempt (`audio_converter.py`
lines 196-267): the attempt may raise internally (caught, reported as
False), find no audio stream, or write an output file of some byte size;
its own verification accepts only a nonempty file. -/
inductive PyavOutcome where
  | raised
  | noAudioStream
  | wrote (size : ℕ)
deriving DecidableEq, Repr

/-- Outcome of one `_extract_with_ffmpeg` invocation (lines 153-194): the
subprocess may raise (`check=True` on a nonzero exit, caught internally)
or write an output file of some byte size. -/
inductive FfmpegExtractOutcome where
  | raised
  | wrote (size : ℕ)
deriving DecidableEq, Repr

/-- Oracle inputs of one `extract_audio` call: existence and byte size of
the input file, its extension-derived format, the caller flag
`use_disk_processing`, and the backend outcomes. -/
structure ExtractEnv where
  inputExists : Bool
  inputSize : ℕ
  inputFmt : String
  useDisk : Bool
  pyav : PyavOutcome
  ffmpeg : FfmpegExtractOutcome
deriving Repr

/-- The audio formats eligible for the verbatim-copy fast path
(`audio_converter.py` line 118). -/
def copyFormats : List String := ["mp3", "wav", "ogg", "flac", "m4a", "aac"]

/-- Model of `_extract_with_ffmpeg`: the byte size of the file at the
returned path, or `none` on failure; the verification at lines 184-186
rejects an absent or empty output. -/
def extractWithFfmpeg (o : FfmpegExtractOutcome) : Option ℕ :=
  match o with
  | .raised => none
  | .wrote n => if n = 0 then none else some n

/-- Whether `_extract_with_pyav` reports success: only when it wrote a
nonempty output file (verification at lines 258-260). -/
def pyavSuccess (o : PyavOutcome) : Bool :=
  match o with
  | .wrote n => decide (0 < n)
  | _ => false

/-- Byte size written by the PyAV attempt. -/
def pyavWrittenSize (o : PyavOutcome) : ℕ :=
  match o with
  | .wrote n => n
  | _ => 0

/-- Model of `AudioConverter.extract_audio` (lines 63-151), returning the
byte size of the file at the returned path (`none` models returning
None).  Fast path: an input already in the requested audio format is
copied verbatim by `shutil.copy2`, preserving its size.  Inputs over
100 MB, or an explicit `use_disk_processing`, go straight to the ffmpeg
backend.  Otherwise PyAV is tried first; on its failure the call to the
absent method `_extract_with_pydub` raises `AttributeError`, which the
outer handler catches before falling back to the ffmpeg backend. -/
def extractAudio (env : ExtractEnv) (outputFmt : String) : Option ℕ :=
  if env.inputExists = false then none
  else
    let isLarge := decide (100 * 1024 * 1024 < env.inputSize)
    let useDisk := env.useDisk || isLarge
    if copyFormats.contains env.inputFmt && (env.inputFmt == outputFmt) then
      some env.inputSize
    else if useDisk then extractWithFfmpeg env.ffmpeg
    else if pyavSuccess env.pyav then some (pyavWrittenSize env.pyav)
    else extractWithFfmpeg env.ffmpeg

/-- The character of one decimal digit. -/
def dChar (d : ℕ) : Char := Char.ofNat (48 + d)

/-- Big-endian decimal digits with explicit fuel (always sufficient),
kept structural so that the kernel can evaluate it. -/
def decCharsAux : ℕ → ℕ → List Char
  | 0, _ => []
  | fuel + 1, n =>
    if n < 10 then [dChar n]
    else decCharsAux fuel (n / 10) ++ [dChar (n % 10)]

/-- Big-endian decimal digits of a natural number. -/
def decChars (n : ℕ) : List Char := decCharsAux (n + 1) n

/-- Python `str(n)` for a natural number. -/
def natStr (n : ℕ) : String := ⟨decChars n⟩

/-- Python `f-string` formatting with `03d`: the decimal digits padded
with zeros on the left up to width 3 (wider numbers are not truncated). -/
def pad3 (n : ℕ) : List Char :=
  List.replicate (3 - (decChars n).length) '0' ++ decChars n

/-- Model of the regex class `\w` used by `make_safe_filename`
(alphanumeric or underscore). -/
def pyWordChar (c : Char) : Bool := c.isAlphanum || c == '_'

/-- Model of the regex class `\s`. -/
def pyWhitespace (c : Char) : Bool := c.isWhitespace

/-- Replacement of every whitespace run by one underscore, the effect of
`re.sub(r'\s+', '_', text)`; the flag records whether the previous kept
character was part of a whitespace run. -/
def collapseWS : Bool → List Char → List Char
  | _, [] => []
  | prevWS, c :: rest =>
    if pyWhitespace c then
      if prevWS then collapseWS true rest else '_' :: collapseWS true rest
    else c :: collapseWS false rest

/-- Model of `AudioUtils.make_safe_filename` (`audio_utils.py` lines
256-267): characters outside `[\w\s.-]` are removed, each whitespace run
becomes one underscore, the result is truncated to 255 characters, and
leading dots are stripped. -/
def makeSafeFilename (text : String) : String :=
  let kept := text.data.filter
    (fun c => pyWordChar c || pyWhitespace c || c == '.' || c == '-')
  ⟨((collapseWS false kept).take 255).dropWhile (fun c => c == '.')⟩

/-- Output path of the job for valid-segment index `idx`
(`split_task`, `audio_splitter.py` lines 644-650):
`os.path.join(output_dir, f"{idx+1:03d}_{safe}.{fmt}")` where `safe` is
the sanitised first 30 characters of the stripped label text, or
`segment_{idx+1}` when the text is empty. -/
def splitOutputPath (outputDir outputFormat : String) (idx : ℕ)
    (text : String) : String :=
  let segText := if text == "" then "segment_" ++ natStr (idx + 1)
    else ⟨(pyStrip text).data.take 30⟩
  outputDir ++ "/" ++ ⟨pad3 (idx + 1)⟩ ++ "_" ++ makeSafeFilename segText ++
    "." ++ outputFormat

/-- Model of the Python builtin `sorted` on strings (line 721,
`sorted(output_files)`): a stable ascending sort by the lexicographic
string order. -/
def pysorted (l : List String) : List String :=
  List.insertionSort (fun a b => a ≤ b) l

/-- Oracle inputs of one `AudioSplitter.split` call: existence of the
audio file, the probe result of `AudioUtils.get_audio_info` (`Except`
models an exception reaching the handler), per-job success of
`_split_segment`, and the completion order of the pool futures. -/
structure SplitEnv where
  fileExists : Bool
  probe : Except Unit ℚ
  jobOk : ℕ → Bool
  completion : List ℕ

/-- The contribution of the job at valid-segment index `i` to the output
list of `split`: its output path when `_split_segment` succeeded, `none`
otherwise (`split_task`, lines 644-692). -/
def jobPath (env : SplitEnv) (vsegs : List SegOpt)
    (outputDir outputFormat : String) (i : ℕ) : Option String :=
  match vsegs[i]? with
  | some s => if env.jobOk i then
      some (splitOutputPath outputDir outputFormat i s.text)
    else none
  | none => none

/-- Model of `AudioSplitter.split` (lines 558-734).  A missing file or an
empty segment list returns `[]` before the `try` block; inside it, a
probe exception is caught by the `except` handler which returns `[]`; an
empty valid-segment list returns `[]`; otherwise the successful jobs
yield their output paths in completion order and the function returns
them sorted as strings.  The `Except` result type records what the caller
can observe: every path returns `Except.ok`. -/
def split (env : SplitEnv) (segs : List SegOpt)
    (outputDir outputFormat : String) : Except Unit (List String) :=
  if env.fileExists = false then .ok []
  else if segs.isEmpty then .ok []
  else
    match env.probe with
    | .error _ => .ok []
    | .ok d =>
      let vsegs := validSegments d segs
      if vsegs.isEmpty then .ok []
      else
        .ok (pysorted (env.completion.filterMap
          (jobPath env vsegs outputDir outputFormat)))

/-- The output paths of the successful jobs listed by ascending
valid-segment index: the reference order of C1 and C3. -/
def successPaths (env : SplitEnv) (d : ℚ) (segs : List SegOpt)
    (outputDir outputFormat : String) : List String :=
  (List.range (validSegments d segs).length).filterMap
    (jobPath env (validSegments d segs) outputDir outputFormat)

/-- A batch of 1000 one-second segments. -/
def cexSegs : List SegOpt :=
  (List.range 1000).map (fun (i : ℕ) => ⟨(i : ℚ), (i : ℚ) + 1, "x"⟩)

/-- An oracle for the 1000-segment batch: the file exists, the probe
reports duration 1000, every job succeeds, and the futures complete in
submission order. -/
def cexEnv : SplitEnv :=
  ⟨true, .ok 1000, fun _ => true, List.range 1000⟩

/-! Theorems. -/

example :
    prepareSegments
      [⟨0, 5, "Hello.", []⟩, ⟨5, 6, "ok", []⟩, ⟨6, 40, "...", []⟩] 3 30 true =
      [⟨0, 6, "Hello. ok", []⟩, ⟨6, 40, "...", []⟩] := by
  with_unfolding_all decide

example :
    prepareSegments [⟨0, 4, "a", []⟩, ⟨4, 6, "b", []⟩] 3 5 false =
      [⟨0, 4, "a", []⟩] := by with_unfolding_all decide

theorem mergeCond_eq_false_iff (maxLength : ℚ) (preserveSentences : Bool)
    (t seg : Seg) :
    mergeCond maxLength preserveSentences t seg = false ↔
      (maxLength < segDur t + segDur seg ∨
        (preserveSentences = true ∧ isSentenceEnd t.text = false)) := by
  cases preserveSentences <;> cases hs : isSentenceEnd t.text <;>
    simp [mergeCond, hs, not_le]

theorem mergeSeg_ne (t seg : Seg) : mergeSeg t seg ≠ t := by
  intro h
  have h2 := congrArg (fun s => s.text.length) h
  simp only [mergeSeg, String.length_append] at h2
  have h1 : (" " : String).length = 1 := rfl
  omega

/-- C2 (amended).  The planner loop closes (emits) the working buffer, on
arrival of the next raw segment, exactly when merging would exceed
`max_length` OR when `preserve_sentence_boundaries` is true and the buffer
text does NOT end in terminal punctuation; `min_length` plays no role in
this decision.  On the scenario
`[{0,5,"Hello."}, {5,6,"ok"}, {6,40,"..."}]` with `min_length = 3`,
`max_length = 30`, `preserve = true`, the first emitted segment ends at
time 6 (the claim asserted 5). -/
theorem prepStep_closes_iff :
    (∀ (maxLength : ℚ) (preserveSentences : Bool) (t seg : Seg),
      t ∈ (prepStep maxLength preserveSentences (some t) seg).1 ↔
        (maxLength < segDur t + segDur seg ∨
          (preserveSentences = true ∧ isSentenceEnd t.text = false))) ∧
    ((prepareSegments
        [⟨0, 5, "Hello.", []⟩, ⟨5, 6, "ok", []⟩, ⟨6, 40, "...", []⟩]
        3 30 true).head?.map Seg.stop = some 6) := by
  constructor
  · intro maxLength preserveSentences t seg
    rw [← mergeCond_eq_false_iff maxLength preserveSentences t seg]
    unfold prepStep
    cases hm : mergeCond maxLength preserveSentences t seg with
    | false =>
      simp only [hm, if_false, Bool.false_eq_true]
      split <;> simp
    | true =>
      simp only [hm, if_true]
      have hne := mergeSeg_ne t seg
      split <;> simp [hne, Ne.symm hne]
  · with_unfolding_all decide

/-- C2 counterexample.  On the spec scenario the first emitted segment
ends at time 6, not at the first terminal-punctuation boundary 5: the
code merges when the buffer ends in terminal punctuation instead of
closing there. -/
theorem prepStep_scenario_cex :
    ¬ ((prepareSegments
        [⟨0, 5, "Hello.", []⟩, ⟨5, 6, "ok", []⟩, ⟨6, 40, "...", []⟩]
        3 30 true).head?.map Seg.stop = some 5) := by
  with_unfolding_all decide

theorem prepStep_fst_nil_snd_some (maxLength : ℚ) (preserveSentences : Bool)
    (temp : Option Seg) (seg : Seg)
    (h : (prepStep maxLength preserveSentences temp seg).1 = []) :
    ∃ t, (prepStep maxLength preserveSentences temp seg).2 = some t := by
  rcases temp with _ | t
  · simp only [prepStep] at h ⊢
    revert h
    split <;> simp
  · simp only [prepStep] at h ⊢
    cases hm : mergeCond maxLength preserveSentences t seg <;>
      simp only [hm, Bool.false_eq_true, if_false, if_true] at h ⊢ <;>
      revert h <;> split <;> simp

theorem prepGo_ne_nil (minLength maxLength : ℚ) (preserveSentences : Bool) :
    ∀ (l : List Seg) (temp : Option Seg), (temp ≠ none ∨ l ≠ []) →
      prepGo minLength maxLength preserveSentences false temp l ≠ [] := by
  intro l
  induction l with
  | nil =>
    intro temp h
    rcases temp with _ | t
    · simp at h
    · simp only [prepGo]
      simp
  | cons seg rest ih =>
    intro temp _
    show (prepStep maxLength preserveSentences temp seg).1 ++ _ ≠ []
    cases hp : (prepStep maxLength preserveSentences temp seg).1 with
    | cons a as => simp
    | nil =>
      obtain ⟨t, ht⟩ := prepStep_fst_nil_snd_some maxLength preserveSentences
        temp seg hp
      simp only [hp, List.nil_append, List.isEmpty_nil, Bool.not_true,
        Bool.or_false, ht]
      exact ih (some t) (Or.inl (by simp))

/-- C8 (amended).  For nonempty input the planner output is never empty,
but the final working buffer is flushed only when its duration reaches
`min_length` or when nothing was emitted before it; otherwise it is
dropped, so the last planned end time need not equal the last raw end
time. -/
theorem prepare_nonempty_and_final_flush :
    (∀ (minLength maxLength : ℚ) (preserveSentences : Bool)
        (segs : List Seg), segs ≠ [] →
        prepareSegments segs minLength maxLength preserveSentences ≠ []) ∧
    (∀ (minLength maxLength : ℚ) (preserveSentences : Bool) (emitted : Bool)
        (t : Seg),
        prepGo minLength maxLength preserveSentences emitted (some t) [] =
          if minLength ≤ segDur t ∨ emitted = false then [t] else []) := by
  constructor
  · intro minLength maxLength preserveSentences segs h
    exact prepGo_ne_nil minLength maxLength preserveSentences segs none
      (Or.inr h)
  · intro minLength maxLength preserveSentences emitted t
    rfl

/-- C8 witness: a one-element input yields nonempty output. -/
theorem prepare_nonempty_witness :
    ([⟨0, 4, "a", []⟩] : List Seg) ≠ [] ∧
      prepareSegments [⟨0, 4, "a", []⟩] 3 5 false ≠ [] :=
  ⟨by simp, prepare_nonempty_and_final_flush.1 3 5 false _ (by simp)⟩

/-- C8 counterexample.  With raw segments `[{0,4,"a"}, {4,6,"b"}]`,
`min_length = 3`, `max_length = 5`, the final buffer `{4,6,"b"}` has
duration 2 below `min_length` and an earlier segment was emitted, so it is
dropped: the last planned end time is 4, not the last raw end time 6. -/
theorem prepare_final_flush_cex :
    (prepareSegments [⟨0, 4, "a", []⟩, ⟨4, 6, "b", []⟩]
        3 5 false).getLast?.map Seg.stop = some 4 ∧
      (some (4 : ℚ) ≠ some (6 : ℚ)) := by
  constructor
  · with_unfolding_all decide
  · with_unfolding_all decide

theorem fromRaw_eq_self (s : Seg) (h : pyStrip s.text = s.text) :
    fromRaw s = s := by
  cases s
  simp only [fromRaw] at h ⊢
  simp [h]

theorem chainNoMerge_cons_cons (maxLength : ℚ) (pres : Bool) (a b : Seg)
    (rest : List Seg)
    (h : chainNoMerge maxLength pres (a :: b :: rest) = true) :
    (maxLength ≤ segDur a ∨ mergeCond maxLength pres a b = false) ∧
      chainNoMerge maxLength pres (b :: rest) = true := by
  simp only [chainNoMerge, Bool.and_eq_true, Bool.or_eq_true,
    decide_eq_true_eq, Bool.not_eq_true'] at h
  exact h

theorem chainNoMerge_tail (maxLength : ℚ) (pres : Bool) {a : Seg}
    {l : List Seg} (h : chainNoMerge maxLength pres (a :: l) = true) :
    chainNoMerge maxLength pres l = true := by
  cases l with
  | nil => rfl
  | cons b rest => exact (chainNoMerge_cons_cons maxLength pres a b rest h).2

theorem prepGo_fixed (minLength maxLength : ℚ) (pres : Bool) :
    ∀ (l : List Seg) (e : Bool) (t : Option Seg),
      (∀ x, t = some x → segDur x < maxLength) →
      (∀ s ∈ l, pyStrip s.text = s.text) →
      chainNoMerge maxLength pres (t.toList ++ l) = true →
      (∀ z, (t.toList ++ l).getLast? = some z →
        (maxLength ≤ segDur z ∨ minLength ≤ segDur z ∨
          (e = false ∧ t.toList ++ l = [z]))) →
      prepGo minLength maxLength pres e t l = t.toList ++ l := by
  intro l
  induction l with
  | nil =>
    intro e t ht _ _ hlast
    rcases t with _ | x
    · rfl
    · have hx := ht x rfl
      simp only [Option.toList, List.singleton_append, List.append_nil]
        at hlast ⊢
      rcases hlast x rfl with h | h | h
      · exact absurd h (not_le.mpr hx)
      · simp only [prepGo]
        rw [if_pos (Or.inl h)]
      · simp only [prepGo]
        rw [if_pos (Or.inr h.1)]
  | cons y rest ih =>
    intro e t ht htrim hchain hlast
    have hy : fromRaw y = y := fromRaw_eq_self y (htrim y (by simp))
    have htrimr : ∀ s ∈ rest, pyStrip s.text = s.text :=
      fun s hs => htrim s (List.mem_cons_of_mem _ hs)
    rcases t with _ | x
    · have hchain1 : chainNoMerge maxLength pres (y :: rest) = true := hchain
      have hlast1 : ∀ z, (y :: rest).getLast? = some z →
          (maxLength ≤ segDur z ∨ minLength ≤ segDur z ∨
            (e = false ∧ y :: rest = [z])) := hlast
      have hstep : prepStep maxLength pres none y =
          if maxLength ≤ segDur y then ([y], none) else ([], some y) := by
        simp only [prepStep, hy]
        split <;> simp
      by_cases hMy : maxLength ≤ segDur y
      · have hih := ih true none (by intro u hu; cases hu) htrimr
          (chainNoMerge_tail maxLength pres hchain1)
          (by
            intro z hz
            rcases rest with _ | ⟨r, rs⟩
            · cases hz
            · rcases hlast1 z
                (by rw [List.getLast?_cons_cons]; exact hz) with h | h | h
              · exact Or.inl h
              · exact Or.inr (Or.inl h)
              · exact absurd h.2 (by simp))
        simp [prepGo, hstep, hMy, hih, Option.toList]
      · have hih := ih e (some y)
          (by intro u hu; cases hu; exact not_le.mp hMy) htrimr hchain1 hlast1
        simp [prepGo, hstep, hMy, hih, Option.toList]
    · have hx := ht x rfl
      have hchain1 : chainNoMerge maxLength pres (x :: y :: rest) = true :=
        hchain
      have hlast1 : ∀ z, (x :: y :: rest).getLast? = some z →
          (maxLength ≤ segDur z ∨ minLength ≤ segDur z ∨
            (e = false ∧ x :: y :: rest = [z])) := hlast
      obtain ⟨hrel, hchain2⟩ :=
        chainNoMerge_cons_cons maxLength pres x y rest hchain1
      have hmc : mergeCond maxLength pres x y = false :=
        hrel.resolve_left (not_le.mpr hx)
      have hstep : prepStep maxLength pres (some x) y =
          if maxLength ≤ segDur y then ([x, y], none) else ([x], some y) := by
        simp only [prepStep, hmc, Bool.false_eq_true, if_false, hy]
        split <;> simp
      by_cases hMy : maxLength ≤ segDur y
      · have hih := ih true none (by intro u hu; cases hu) htrimr
          (chainNoMerge_tail maxLength pres hchain2)
          (by
            intro z hz
            rcases rest with _ | ⟨r, rs⟩
            · cases hz
            · rcases hlast1 z
                (by rw [List.getLast?_cons_cons, List.getLast?_cons_cons]
                    exact hz) with h | h | h
              · exact Or.inl h
              · exact Or.inr (Or.inl h)
              · exact absurd h.2 (by simp))
        simp [prepGo, hstep, hMy, hih, Option.toList]
      · have hih := ih true (some y)
          (by intro u hu; cases hu; exact not_le.mp hMy) htrimr hchain2
          (by
            intro z hz
            rcases hlast1 z
              (by rw [List.getLast?_cons_cons]; exact hz) with h | h | h
            · exact Or.inl h
            · exact Or.inr (Or.inl h)
            · exact absurd h.2 (by simp))
        simp [prepGo, hstep, hMy, hih, Option.toList]

theorem prepare_fixed (minLength maxLength : ℚ) (pres : Bool) (p : List Seg)
    (h : boundaryOk minLength maxLength pres p = true) :
    prepareSegments p minLength maxLength pres = p := by
  simp only [boundaryOk, Bool.and_eq_true, List.all_eq_true, beq_iff_eq] at h
  obtain ⟨⟨htrim, hchain⟩, hlastB⟩ := h
  apply prepGo_fixed minLength maxLength pres p false none
    (by intro x hx; cases hx) htrim hchain
  intro z hz
  have hz2 : p.getLast? = some z := hz
  simp only [lastOkB, hz2, Bool.or_eq_true, decide_eq_true_eq] at hlastB
  rcases hlastB with (h | h) | h
  · exact Or.inl h
  · exact Or.inr (Or.inl h)
  · obtain ⟨a, rfl⟩ := List.length_eq_one.mp h
    have ha : a = z := by
      rw [List.getLast?_singleton] at hz2
      exact Option.some.inj hz2
    subst ha
    exact Or.inr (Or.inr ⟨rfl, rfl⟩)

/-- C9.  The planner is idempotent: re-applying `prepare_segments` with the
same options to its own output leaves the list unchanged, provided the
boundary conditions are already satisfied (texts stripped, no adjacent pair
satisfies the merge condition, and the final segment survives the
min-length flush rule). -/
theorem prepareSegments_idem (minLength maxLength : ℚ)
    (preserveSentences : Bool) (segs : List Seg)
    (h : boundaryOk minLength maxLength preserveSentences
      (prepareSegments segs minLength maxLength preserveSentences) = true) :
    prepareSegments
        (prepareSegments segs minLength maxLength preserveSentences)
        minLength maxLength preserveSentences =
      prepareSegments segs minLength maxLength preserveSentences :=
  prepare_fixed minLength maxLength preserveSentences _ h

/-- C9 witness: a two-segment input whose planned output satisfies the
boundary conditions, and is indeed a fixed point. -/
theorem prepareSegments_idem_witness :
    boundaryOk 3 5 true
        (prepareSegments [⟨0, 4, "a", []⟩, ⟨4, 9, "b", []⟩] 3 5 true) = true ∧
      prepareSegments
          (prepareSegments [⟨0, 4, "a", []⟩, ⟨4, 9, "b", []⟩] 3 5 true)
          3 5 true =
        prepareSegments [⟨0, 4, "a", []⟩, ⟨4, 9, "b", []⟩] 3 5 true :=
  ⟨by with_unfolding_all decide,
    prepareSegments_idem 3 5 true _ (by with_unfolding_all decide)⟩

theorem length_filterMap_add_countP_none {α β : Type} (f : α → Option β)
    (l : List α) :
    (l.filterMap f).length + l.countP (fun a => (f a).isNone) = l.length := by
  induction l with
  | nil => rfl
  | cons a l ih =>
    cases hf : f a <;>
      simp [List.filterMap_cons, hf, List.countP_cons, ← ih] <;> omega

/-- C6 (amended).  Against a positive probed duration `D`, `split` drops
every segment with `end <= start` and every segment with `start >= D`,
clips to `D` the end of every segment overrunning `D`, the number of
excluded segments equals the difference between the raw and valid counts,
and every kept segment satisfies `start < end <= D`.  The code does NOT
enforce `0 <= start`: a segment with a negative start is kept unchanged. -/
theorem split_segment_validation (D : ℚ) (hD : 0 < D) (l : List SegOpt) :
    (∀ s : SegOpt, s.stop ≤ s.start → validateOne D s = none) ∧
    (∀ s : SegOpt, D ≤ s.start → validateOne D s = none) ∧
    (∀ s : SegOpt, s.start < D → D < s.stop →
      validateOne D s = some { s with stop := D }) ∧
    ((validSegments D l).length +
        l.countP (fun s => (validateOne D s).isNone) = l.length) ∧
    (∀ s ∈ validSegments D l, s.start < s.stop ∧ s.stop ≤ D) := by
  refine ⟨?_, ?_, ?_, ?_, ?_⟩
  · intro s hs
    simp [validateOne, hs]
  · intro s hs
    by_cases h1 : s.stop ≤ s.start
    · simp [validateOne, h1]
    · simp [validateOne, h1, hD, hs]
  · intro s h1 h2
    have h3 : ¬ s.stop ≤ s.start := not_le.mpr (h1.trans h2)
    have h4 : ¬ D ≤ s.start := not_le.mpr h1
    simp [validateOne, h3, hD, h4, h2]
  · exact length_filterMap_add_countP_none (validateOne D) l
  · intro s hs
    obtain ⟨a, _, ha⟩ := List.mem_filterMap.mp hs
    by_cases h1 : a.stop ≤ a.start
    · simp [validateOne, h1] at ha
    · by_cases h2 : D ≤ a.start
      · simp [validateOne, h1, hD, h2] at ha
      · by_cases h3 : D < a.stop
        · simp only [validateOne, h1, hD, h2, h3, if_true, if_false,
            if_neg, if_pos, Option.some.injEq] at ha
          subst ha
          exact ⟨not_le.mp h2, le_refl D⟩
        · simp only [validateOne, h1, hD, h2, h3, if_true, if_false,
            if_neg, if_pos, Option.some.injEq] at ha
          subst ha
          exact ⟨not_le.mp h1, not_lt.mp h3⟩

/-- C6 witness: duration 10 with one dropped inverted segment, one dropped
out-of-range segment, one clipped segment and one kept segment. -/
theorem split_segment_validation_witness :
    (0 : ℚ) < 10 ∧
    ((∀ s : SegOpt, s.stop ≤ s.start → validateOne 10 s = none) ∧
     (∀ s : SegOpt, (10 : ℚ) ≤ s.start → validateOne 10 s = none) ∧
     (∀ s : SegOpt, s.start < 10 → (10 : ℚ) < s.stop →
       validateOne 10 s = some { s with stop := 10 }) ∧
     ((validSegments 10
          [⟨0, 5, "a"⟩, ⟨3, 2, "b"⟩, ⟨12, 13, "c"⟩, ⟨8, 15, "d"⟩]).length +
        ([⟨0, 5, "a"⟩, ⟨3, 2, "b"⟩, ⟨12, 13, "c"⟩,
            (⟨8, 15, "d"⟩ : SegOpt)]).countP
          (fun s => (validateOne 10 s).isNone) =
        ([⟨0, 5, "a"⟩, ⟨3, 2, "b"⟩, ⟨12, 13, "c"⟩,
            (⟨8, 15, "d"⟩ : SegOpt)]).length) ∧
     (∀ s ∈ validSegments 10
          [⟨0, 5, "a"⟩, ⟨3, 2, "b"⟩, ⟨12, 13, "c"⟩, ⟨8, 15, "d"⟩],
        s.start < s.stop ∧ s.stop ≤ 10)) :=
  ⟨by norm_num,
    split_segment_validation 10 (by norm_num)
      [⟨0, 5, "a"⟩, ⟨3, 2, "b"⟩, ⟨12, 13, "c"⟩, ⟨8, 15, "d"⟩]⟩

/-- C6 counterexample.  The claim also asserts `0 <= start` for every
submitted job, but the code never checks the sign of the start time: with
duration 10, the segment `{start: -1, end: 1}` passes validation
unchanged, with a negative start. -/
theorem split_segment_validation_cex :
    validSegments 10 [⟨-1, 1, "x"⟩] = [⟨-1, 1, "x"⟩] ∧
      ¬ (0 ≤ (⟨-1, 1, "x"⟩ : SegOpt).start) := by
  constructor
  · with_unfolding_all decide
  · with_unfolding_all decide

/-- C7 (amended).  The per-process timeout is computed from the segment
duration and bounded between the floor 10 s and the ceiling 120 s; on
timeout expiry the job is marked failed and the process is killed
immediately (no graceful terminate, no grace period), and the ffmpeg
attempt is never retried by `_split_segment`. -/
theorem ffmpeg_timeout_behaviour :
    (∀ duration : ℚ,
      10 ≤ timeoutSeconds duration ∧ timeoutSeconds duration ≤ 120) ∧
    ffmpegResult ProcOutcome.timedOut = false ∧
    ffmpegEvents ProcOutcome.timedOut =
      [ProcEvent.spawn, ProcEvent.waitWithTimeout, ProcEvent.kill] ∧
    (∀ (fa pa es : Bool) (fo : ProcOutcome) (po : Bool),
      (splitSegmentAttempts fa pa es fo po).count Backend.ffmpeg ≤ 1) := by
  refine ⟨?_, rfl, rfl, ?_⟩
  · intro d
    exact ⟨le_max_left _ _, max_le (by norm_num) (min_le_left _ _)⟩
  · intro fa pa es fo po
    unfold splitSegmentAttempts
    split_ifs <;>
      simp [List.count_append, List.count_cons, List.count_nil]

/-- C7 counterexample.  The claim states that on timeout expiry the
process first receives a graceful terminate signal and a grace period
before being killed; in the code the `TimeoutExpired` handler calls
`process.kill()` immediately, so no terminate event ever occurs. -/
theorem ffmpeg_timeout_cex :
    ProcEvent.terminate ∉ ffmpegEvents ProcOutcome.timedOut ∧
      ProcEvent.kill ∈ ffmpegEvents ProcOutcome.timedOut := by
  constructor <;> decide

theorem countP_set_of_getElem {α : Type} (p : α → Bool) :
    ∀ (s : List α) (i : ℕ) (a b : α), s[i]? = some a →
      (s.set i b).countP p + (if p a then 1 else 0) =
        s.countP p + (if p b then 1 else 0) := by
  intro s
  induction s with
  | nil => intro i a b h; simp at h
  | cons c t ih =>
    intro i a b h
    cases i with
    | zero =>
      simp only [List.getElem?_cons_zero, Option.some.injEq] at h
      subst h
      simp only [List.set_cons_zero, List.countP_cons]
      omega
    | succ j =>
      simp only [List.getElem?_cons_succ] at h
      simp only [List.set_cons_succ, List.countP_cons]
      have := ih j a b h
      omega

theorem countP_replicate_idle (n : ℕ) (p : Phase → Bool)
    (hp : p Phase.idle = false) :
    (List.replicate n Phase.idle).countP p = 0 := by
  induction n with
  | zero => rfl
  | succ m ih => simp [List.replicate_succ, List.countP_cons, hp, ih]

theorem holders_le_of_reach (C n : ℕ) :
    ∀ s, GovReach C n s → holders s ≤ C := by
  intro s h
  induction h with
  | refl =>
    rw [show holders (List.replicate n Phase.idle) = 0 from
      countP_replicate_idle n _ rfl]
    exact Nat.zero_le C
  | tail _ hstep ih =>
    cases hstep with
    | acquire i hget hlt =>
      have hc := countP_set_of_getElem
        (fun p => p == Phase.acquired || p == Phase.spawned) _ i
        Phase.idle Phase.acquired hget
      simp only [holders] at ih hlt ⊢
      simp at hc
      omega
    | spawn i hget =>
      have hc := countP_set_of_getElem
        (fun p => p == Phase.acquired || p == Phase.spawned) _ i
        Phase.acquired Phase.spawned hget
      simp only [holders] at ih ⊢
      simp at hc
      omega
    | finish i hget =>
      have hc := countP_set_of_getElem
        (fun p => p == Phase.acquired || p == Phase.spawned) _ i
        Phase.spawned Phase.done hget
      simp only [holders] at ih ⊢
      simp at hc
      omega

theorem aliveProcs_le_holders (s : List Phase) : aliveProcs s ≤ holders s := by
  induction s with
  | nil => exact Nat.le_refl 0
  | cons c t ih =>
    simp only [aliveProcs, holders, List.countP_cons] at ih ⊢
    cases c <;> simp <;> omega

/-- C4.  In any reachable state of a batch run by one `AudioSplitter`
with semaphore capacity `C`, at most `C` external ffmpeg processes are
alive: a unit is acquired before each spawn and released on every exit
path, and a live process implies a held unit. -/
theorem governor_bounds_processes (C n : ℕ) (s : List Phase)
    (h : GovReach C n s) : aliveProcs s ≤ C :=
  le_trans (aliveProcs_le_holders s) (holders_le_of_reach C n s h)

/-- C4 witness: with capacity 1 and one job, the state after acquire and
spawn is reachable and has one live process, within the bound. -/
theorem governor_bounds_witness :
    GovReach 1 1 [Phase.spawned] ∧ aliveProcs [Phase.spawned] ≤ 1 := by
  have h1 : GovStep 1 [Phase.idle] [Phase.acquired] :=
    GovStep.acquire [Phase.idle] 0 rfl (by decide)
  have h2 : GovStep 1 [Phase.acquired] [Phase.spawned] :=
    GovStep.spawn [Phase.acquired] 0 rfl
  have hr : GovReach 1 1 [Phase.spawned] :=
    Relation.ReflTransGen.tail
      (Relation.ReflTransGen.tail Relation.ReflTransGen.refl h1) h2
  exact ⟨hr, governor_bounds_processes 1 1 [Phase.spawned] hr⟩

theorem extractWithFfmpeg_pos (o : FfmpegExtractOutcome) (n : ℕ)
    (h : extractWithFfmpeg o = some n) : 0 < n := by
  cases o with
  | raised => cases h
  | wrote m =>
    by_cases hm : m = 0
    · simp [extractWithFfmpeg, hm] at h
    · simp [extractWithFfmpeg, hm] at h
      omega

/-- C5.  For a present, non-empty input file, `extract_audio` either
returns a path to a non-empty file or reports failure (None); it never
returns a path to a zero-byte file, including on the verbatim-copy fast
path. -/
theorem extract_never_returns_empty_file (env : ExtractEnv)
    (outputFmt : String) (hex : env.inputExists = true)
    (hsz : 0 < env.inputSize) :
    ∀ n, extractAudio env outputFmt = some n → 0 < n := by
  intro n h
  unfold extractAudio at h
  rw [hex] at h
  simp only [Bool.true_eq_false, if_false] at h
  split_ifs at h with h1 h2 h3
  · have := Option.some.inj h
    omega
  · exact extractWithFfmpeg_pos _ _ h
  · cases hp : env.pyav with
    | wrote m =>
      rw [hp] at h3 h
      simp only [pyavSuccess, decide_eq_true_eq] at h3
      simp only [pyavWrittenSize, Option.some.injEq] at h
      omega
    | raised =>
      rw [hp] at h3
      simp [pyavSuccess] at h3
    | noAudioStream =>
      rw [hp] at h3
      simp [pyavSuccess] at h3
  · exact extractWithFfmpeg_pos _ _ h

/-- C5 witness: a 1000-byte mp4 input converted to wav through the PyAV
backend yields a 500-byte output, which is nonzero. -/
theorem extract_never_returns_empty_file_witness :
    (⟨true, 1000, "mp4", false, PyavOutcome.wrote 500,
        FfmpegExtractOutcome.wrote 800⟩ : ExtractEnv).inputExists = true ∧
    0 < (⟨true, 1000, "mp4", false, PyavOutcome.wrote 500,
        FfmpegExtractOutcome.wrote 800⟩ : ExtractEnv).inputSize ∧
    (∀ n, extractAudio ⟨true, 1000, "mp4", false, PyavOutcome.wrote 500,
        FfmpegExtractOutcome.wrote 800⟩ "wav" = some n → 0 < n) :=
  ⟨rfl, by decide,
    extract_never_returns_empty_file _ "wav" rfl (by decide)⟩

theorem split_ok_exists (env : SplitEnv) (segs : List SegOpt)
    (dir fmt : String) : ∃ l, split env segs dir fmt = .ok l := by
  unfold split
  split
  · exact ⟨[], rfl⟩
  · split
    · exact ⟨[], rfl⟩
    · split
      · exact ⟨[], rfl⟩
      · dsimp only
        split
        · exact ⟨[], rfl⟩
        · exact ⟨_, rfl⟩

theorem split_file_missing (env : SplitEnv) (segs : List SegOpt)
    (dir fmt : String) (h : env.fileExists = false) :
    split env segs dir fmt = .ok [] := by
  simp [split, h]

theorem split_empty_segs (env : SplitEnv) (dir fmt : String) :
    split env [] dir fmt = .ok [] := by
  simp [split]

theorem split_probe_error (env : SplitEnv) (segs : List SegOpt)
    (dir fmt : String) (h : env.probe = .error ()) :
    split env segs dir fmt = .ok [] := by
  unfold split
  split
  · rfl
  · split
    · rfl
    · rw [h]

theorem split_all_jobs_fail (env : SplitEnv) (segs : List SegOpt)
    (dir fmt : String) (h : ∀ i, env.jobOk i = false) :
    split env segs dir fmt = .ok [] := by
  rcases hprobe : env.probe with e | d
  · exact split_probe_error env segs dir fmt (by rw [hprobe])
  · unfold split
    split
    · rfl
    · split
      · rfl
      · rw [hprobe]
        dsimp only
        split
        · rfl
        · have hnil : env.completion.filterMap
              (jobPath env (validSegments d segs) dir fmt) = [] := by
            rw [List.filterMap_eq_nil_iff]
            intro i _
            cases hv : (validSegments d segs)[i]? with
            | none => simp [jobPath, hv]
            | some s => simp [jobPath, hv, h i]
          rw [hnil]
          rfl

/-- C10.  The public interface of `split` never propagates an exception:
every call returns normally, and a missing audio file, an empty segment
list, a probe exception, and failure of every encode job each yield the
empty list, so the only failure signal at this interface is the length of
the returned list. -/
theorem split_never_raises :
    (∀ (env : SplitEnv) (segs : List SegOpt) (dir fmt : String),
      ∃ l, split env segs dir fmt = .ok l) ∧
    (∀ (env : SplitEnv) (segs : List SegOpt) (dir fmt : String),
      env.fileExists = false → split env segs dir fmt = .ok []) ∧
    (∀ (env : SplitEnv) (dir fmt : String), split env [] dir fmt = .ok []) ∧
    (∀ (env : SplitEnv) (segs : List SegOpt) (dir fmt : String),
      env.probe = .error () → split env segs dir fmt = .ok []) ∧
    (∀ (env : SplitEnv) (segs : List SegOpt) (dir fmt : String),
      (∀ i, env.jobOk i = false) → split env segs dir fmt = .ok []) :=
  ⟨split_ok_exists, split_file_missing, split_empty_segs,
    split_probe_error, split_all_jobs_fail⟩

/-- C10 witness: concrete calls exercising each failure mode return
normally with the empty list. -/
theorem split_never_raises_witness :
    ((⟨false, .ok 10, fun _ => true, []⟩ : SplitEnv).fileExists = false ∧
      split ⟨false, .ok 10, fun _ => true, []⟩ [⟨0, 5, "a"⟩] "o" "mp3" =
        .ok []) ∧
    (split ⟨true, .ok 10, fun _ => false, [0]⟩ [] "o" "mp3" = .ok []) ∧
    ((⟨true, .error (), fun _ => true, [0]⟩ : SplitEnv).probe = .error () ∧
      split ⟨true, .error (), fun _ => true, [0]⟩ [⟨0, 5, "a"⟩] "o" "mp3" =
        .ok []) ∧
    ((∀ i, (⟨true, .ok 10, fun _ => false, [0]⟩ : SplitEnv).jobOk i = false) ∧
      split ⟨true, .ok 10, fun _ => false, [0]⟩ [⟨0, 5, "a"⟩] "o" "mp3" =
        .ok []) :=
  ⟨⟨rfl, split_never_raises.2.1 _ _ "o" "mp3" rfl⟩,
    split_never_raises.2.2.1 _ "o" "mp3",
    ⟨rfl, split_never_raises.2.2.2.1 _ _ "o" "mp3" rfl⟩,
    ⟨fun _ => rfl, split_never_raises.2.2.2.2 _ _ "o" "mp3" (fun _ => rfl)⟩⟩

/-- C1 (amended).  When the audio file exists, the segment list is
nonempty and the probe succeeds, `split` returns normally with exactly
the output paths of the successful jobs (possibly fewer than requested); when
zero jobs succeed it returns the empty list instead of raising — `split`
never raises at all, so the claimed "raises exactly when zero jobs
succeed" does not hold. -/
theorem split_partial_failure (env : SplitEnv) (segs : List SegOpt)
    (dir fmt : String) (d : ℚ) (hex : env.fileExists = true)
    (hne : segs ≠ []) (hp : env.probe = .ok d)
    (hperm : env.completion.Perm
      (List.range (validSegments d segs).length)) :
    (∃ l, split env segs dir fmt = .ok l ∧
      l.Perm (successPaths env d segs dir fmt)) ∧
    ((∀ i, env.jobOk i = false) → split env segs dir fmt = .ok []) := by
  constructor
  · have hseg : segs.isEmpty = false := by
      cases segs
      · exact absurd rfl hne
      · rfl
    unfold split
    rw [hex, hp, hseg]
    simp only [Bool.true_eq_false, Bool.false_eq_true, if_false]
    by_cases hv : (validSegments d segs).isEmpty
    · rw [if_pos hv]
      refine ⟨[], rfl, ?_⟩
      have hnil : validSegments d segs = [] := by
        cases hveq : validSegments d segs
        · rfl
        · rw [hveq] at hv; cases hv
      simp [successPaths, hnil]
    · rw [if_neg hv]
      exact ⟨_, rfl,
        (List.perm_insertionSort _ _).trans (hperm.filterMap _)⟩
  · exact split_all_jobs_fail env segs dir fmt

/-- C1 witness: one valid segment whose job succeeds; the returned list
is a permutation of the one successful output path. -/
theorem split_partial_failure_witness :
    (⟨true, .ok 10, fun _ => true, [0]⟩ : SplitEnv).fileExists = true ∧
    ([⟨0, 5, "a"⟩] : List SegOpt) ≠ [] ∧
    (⟨true, .ok 10, fun _ => true, [0]⟩ : SplitEnv).probe = .ok 10 ∧
    (⟨true, .ok 10, fun _ => true, [0]⟩ : SplitEnv).completion.Perm
      (List.range (validSegments 10 [⟨0, 5, "a"⟩]).length) ∧
    ((∃ l, split ⟨true, .ok 10, fun _ => true, [0]⟩ [⟨0, 5, "a"⟩] "o" "mp3" =
          .ok l ∧
        l.Perm (successPaths ⟨true, .ok 10, fun _ => true, [0]⟩ 10
          [⟨0, 5, "a"⟩] "o" "mp3")) ∧
      ((∀ i, (⟨true, .ok 10, fun _ => true, [0]⟩ : SplitEnv).jobOk i = false) →
        split ⟨true, .ok 10, fun _ => true, [0]⟩ [⟨0, 5, "a"⟩] "o" "mp3" =
          .ok [])) :=
  ⟨rfl, by simp, rfl, by with_unfolding_all decide,
    split_partial_failure _ _ "o" "mp3" 10 rfl (by simp) rfl
      (by with_unfolding_all decide)⟩

/-- C1 counterexample.  A call on an existing file with one valid segment
whose only job fails returns the empty list normally; it does not raise,
refuting "raises exactly when zero jobs succeed". -/
theorem split_zero_success_cex :
    split ⟨true, .ok 10, fun _ => false, [0]⟩ [⟨0, 5, "a"⟩] "o" "mp3" =
        Except.ok [] ∧
      split ⟨true, .ok 10, fun _ => false, [0]⟩ [⟨0, 5, "a"⟩] "o" "mp3" ≠
        Except.error () := by
  have h := split_all_jobs_fail ⟨true, .ok 10, fun _ => false, [0]⟩
    [⟨0, 5, "a"⟩] "o" "mp3" (fun _ => rfl)
  exact ⟨h, by rw [h]; exact fun hc => Except.noConfusion hc⟩

theorem dChar_lt_dChar :
    ∀ a, a < 10 → ∀ b, b < 10 → a < b → dChar a < dChar b := by decide

theorem decCharsAux_small (fuel n : ℕ) (hn : n < 10) (hf : 0 < fuel) :
    decCharsAux fuel n = [dChar n] := by
  cases fuel with
  | zero => omega
  | succ m => simp [decCharsAux, hn]

theorem decCharsAux_mid (fuel m : ℕ) (h1 : 10 ≤ m) (h2 : m < 100)
    (hf : 1 ≤ fuel) :
    decCharsAux (fuel + 1) m = [dChar (m / 10), dChar (m % 10)] := by
  have hn : ¬ m < 10 := by omega
  simp only [decCharsAux, hn, if_false]
  rw [decCharsAux_small fuel (m / 10) (by omega) hf]
  rfl

theorem decCharsAux_fuel_irrel :
    ∀ (n fuel₁ fuel₂ : ℕ), n < fuel₁ → n < fuel₂ →
      decCharsAux fuel₁ n = decCharsAux fuel₂ n := by
  intro n
  induction n using Nat.strong_induction_on with
  | _ n ih =>
    intro f1 f2 h1 h2
    cases f1 with
    | zero => omega
    | succ a =>
      cases f2 with
      | zero => omega
      | succ b =>
        by_cases hn : n < 10
        · simp [decCharsAux, hn]
        · simp only [decCharsAux, hn, if_false]
          rw [ih (n / 10) (by omega) a b (by omega) (by omega)]

theorem decChars_high (m : ℕ) (h1 : 100 ≤ m) (h2 : m < 1000) :
    decChars m =
      [dChar (m / 100), dChar (m / 10 % 10), dChar (m % 10)] := by
  unfold decChars
  have hn : ¬ m < 10 := by omega
  simp only [decCharsAux, hn, if_false]
  rw [decCharsAux_fuel_irrel (m / 10) m (m / 10 + 1) (by omega) (by omega)]
  rw [decCharsAux_mid (m / 10) (m / 10) (by omega) (by omega) (by omega)]
  rw [Nat.div_div_eq_div_mul]
  rfl

theorem pad3_eq (n : ℕ) (h : n < 1000) :
    pad3 n = [dChar (n / 100), dChar (n / 10 % 10), dChar (n % 10)] := by
  have h0 : dChar 0 = '0' := by decide
  unfold pad3
  by_cases h1 : n < 10
  · rw [show decChars n = [dChar n] from
      decCharsAux_small _ _ h1 (by omega)]
    rw [show n / 100 = 0 by omega, show n / 10 % 10 = 0 by omega,
      show n % 10 = n by omega, h0]
    rfl
  · by_cases h2 : n < 100
    · rw [show decChars n = [dChar (n / 10), dChar (n % 10)] from
        decCharsAux_mid n n (by omega) h2 (by omega)]
      rw [show n / 100 = 0 by omega, show n / 10 % 10 = n / 10 by omega, h0]
      rfl
    · rw [decChars_high n (by omega) h]
      rfl

theorem lex_append_left (p : List Char) {xs ys : List Char}
    (h : List.Lex (· < ·) xs ys) :
    List.Lex (· < ·) (p ++ xs) (p ++ ys) := by
  induction p with
  | nil => exact h
  | cons c cs ih => exact List.Lex.cons ih

theorem pad3_append_lt (a b : ℕ) (hab : a < b) (hb : b < 1000)
    (ra rb : List Char) :
    List.Lex (· < ·) (pad3 a ++ ra) (pad3 b ++ rb) := by
  rw [pad3_eq a (by omega), pad3_eq b hb]
  have hd : a / 100 < b / 100 ∨ (a / 100 = b / 100 ∧
      (a / 10 % 10 < b / 10 % 10 ∨ (a / 10 % 10 = b / 10 % 10 ∧
        a % 10 < b % 10))) := by omega
  simp only [List.cons_append, List.nil_append]
  rcases hd with h | ⟨e2, h | ⟨e1, h⟩⟩
  · exact List.Lex.rel (dChar_lt_dChar _ (by omega) _ (by omega) h)
  · rw [e2]
    exact List.Lex.cons
      (List.Lex.rel (dChar_lt_dChar _ (by omega) _ (by omega) h))
  · rw [e2, e1]
    exact List.Lex.cons (List.Lex.cons
      (List.Lex.rel (dChar_lt_dChar _ (by omega) _ (by omega) h)))

theorem splitOutputPath_data (dir fmt : String) (idx : ℕ) (t : String) :
    (splitOutputPath dir fmt idx t).data =
      (dir.data ++ ['/']) ++ (pad3 (idx + 1) ++ ('_' ::
        ((makeSafeFilename (if t == "" then "segment_" ++ natStr (idx + 1)
          else ⟨(pyStrip t).data.take 30⟩)).data ++ ('.' :: fmt.data)))) := by
  simp [splitOutputPath, String.data_append, List.append_assoc]

theorem splitOutputPath_lt (dir fmt : String) (i j : ℕ) (ti tj : String)
    (hij : i < j) (hj : j < 999) :
    splitOutputPath dir fmt i ti < splitOutputPath dir fmt j tj := by
  rw [String.lt_iff_toList_lt]
  show List.Lex (· < ·) (splitOutputPath dir fmt i ti).data
    (splitOutputPath dir fmt j tj).data
  rw [splitOutputPath_data, splitOutputPath_data]
  exact lex_append_left _
    (pad3_append_lt (i + 1) (j + 1) (by omega) (by omega) _ _)

theorem jobPath_eq_some (env : SplitEnv) (vsegs : List SegOpt)
    (dir fmt : String) (i : ℕ) (x : String)
    (h : jobPath env vsegs dir fmt i = some x) :
    ∃ s, vsegs[i]? = some s ∧ env.jobOk i = true ∧
      x = splitOutputPath dir fmt i s.text := by
  unfold jobPath at h
  cases hv : vsegs[i]? with
  | none => rw [hv] at h; cases h
  | some s =>
    rw [hv] at h
    dsimp only at h
    by_cases hj : env.jobOk i = true
    · rw [if_pos hj] at h
      exact ⟨s, rfl, hj, (Option.some.inj h).symm⟩
    · rw [if_neg hj] at h
      cases h

theorem successPaths_pairwise (env : SplitEnv) (d : ℚ) (segs : List SegOpt)
    (dir fmt : String) (hn : (validSegments d segs).length ≤ 999) :
    List.Pairwise (· < ·) (successPaths env d segs dir fmt) := by
  unfold successPaths
  rw [List.pairwise_filterMap]
  refine List.Pairwise.imp_of_mem ?_ (List.pairwise_lt_range _)
  intro i j hi hj hij x hx y hy
  rw [List.mem_range] at hi hj
  obtain ⟨si, _, _, rfl⟩ := jobPath_eq_some env _ dir fmt i x
    (Option.mem_def.mp hx)
  obtain ⟨sj, _, _, rfl⟩ := jobPath_eq_some env _ dir fmt j y
    (Option.mem_def.mp hy)
  exact splitOutputPath_lt dir fmt i j si.text sj.text hij (by omega)

/-- C3 (amended).  For every call of `split` whose valid-segment count is
at most 999, the returned list holds the output paths of the successful
jobs in
original segment order, for every completion order of the parallel jobs:
the zero-padded index prefix of the filenames makes the final string sort
coincide with the index order.  For 1000 segments or more the
zero-padding width is exceeded and the string sort no longer matches the
index order. -/
theorem split_ordered_by_index (env : SplitEnv) (segs : List SegOpt)
    (dir fmt : String) (d : ℚ) (hex : env.fileExists = true)
    (hne : segs ≠ []) (hp : env.probe = .ok d)
    (hn : (validSegments d segs).length ≤ 999)
    (hperm : env.completion.Perm
      (List.range (validSegments d segs).length)) :
    split env segs dir fmt = .ok (successPaths env d segs dir fmt) := by
  have hseg : segs.isEmpty = false := by
    cases segs
    · exact absurd rfl hne
    · rfl
  unfold split
  rw [hex, hp, hseg]
  simp only [Bool.true_eq_false, Bool.false_eq_true, if_false]
  by_cases hv : (validSegments d segs).isEmpty
  · rw [if_pos hv]
    have hnil : validSegments d segs = [] := by
      cases hveq : validSegments d segs
      · rfl
      · rw [hveq] at hv; cases hv
    simp [successPaths, hnil]
  · rw [if_neg hv]
    congr 1
    refine List.eq_of_perm_of_sorted
      ((List.perm_insertionSort _ _).trans (hperm.filterMap _))
      (List.sorted_insertionSort _ _) ?_
    exact (successPaths_pairwise env d segs dir fmt hn).imp le_of_lt

/-- C3 witness: a one-segment call in which the returned list equals the
index-ordered successful paths. -/
theorem split_ordered_by_index_witness :
    (⟨true, .ok 10, fun _ => true, [0]⟩ : SplitEnv).fileExists = true ∧
    ([⟨0, 5, "a"⟩] : List SegOpt) ≠ [] ∧
    (⟨true, .ok 10, fun _ => true, [0]⟩ : SplitEnv).probe = .ok 10 ∧
    (validSegments 10 [⟨0, 5, "a"⟩]).length ≤ 999 ∧
    (⟨true, .ok 10, fun _ => true, [0]⟩ : SplitEnv).completion.Perm
      (List.range (validSegments 10 [⟨0, 5, "a"⟩]).length) ∧
    split ⟨true, .ok 10, fun _ => true, [0]⟩ [⟨0, 5, "a"⟩] "o" "mp3" =
      .ok (successPaths ⟨true, .ok 10, fun _ => true, [0]⟩ 10
        [⟨0, 5, "a"⟩] "o" "mp3") :=
  ⟨rfl, by simp, rfl, by with_unfolding_all decide,
    by with_unfolding_all decide,
    split_ordered_by_index _ _ "o" "mp3" 10 rfl (by simp) rfl
      (by with_unfolding_all decide) (by with_unfolding_all decide)⟩

theorem validateOne_cex (i : ℕ) (hi : i < 1000) :
    validateOne 1000 ⟨(i : ℚ), (i : ℚ) + 1, "x"⟩ =
      some ⟨(i : ℚ), (i : ℚ) + 1, "x"⟩ := by
  have h1 : ¬ (((i : ℚ) + 1) ≤ (i : ℚ)) := by linarith
  have h2 : (0 : ℚ) < 1000 := by norm_num
  have hcast : (i : ℚ) < 1000 := by exact_mod_cast hi
  have hle : (i : ℚ) ≤ 999 := by exact_mod_cast (by omega : i ≤ 999)
  have h3 : ¬ ((1000 : ℚ) ≤ (i : ℚ)) := by linarith
  have h4 : ¬ ((1000 : ℚ) < (i : ℚ) + 1) := by linarith
  simp [validateOne, h1, h2, h3, h4]

theorem filterMap_of_forall_some {α : Type} (f : α → Option α) :
    ∀ (l : List α), (∀ a ∈ l, f a = some a) → l.filterMap f = l := by
  intro l
  induction l with
  | nil => intro _; rfl
  | cons a t ih =>
    intro h
    simp [List.filterMap_cons, h a (List.mem_cons_self a t),
      ih (fun b hb => h b (List.mem_cons_of_mem a hb))]

theorem validSegments_cex : validSegments 1000 cexSegs = cexSegs := by
  apply filterMap_of_forall_some
  intro s hs
  unfold cexSegs at hs
  obtain ⟨i, hi, rfl⟩ := List.mem_map.mp hs
  exact validateOne_cex i (List.mem_range.mp hi)

theorem cexSegs_length : cexSegs.length = 1000 := by
  unfold cexSegs
  rw [List.length_map, List.length_range]

theorem cexSegs_ne_nil : cexSegs.isEmpty = false := by
  have hne : cexSegs ≠ [] := by
    intro h
    have := congrArg List.length h
    rw [cexSegs_length] at this
    cases this
  cases hc : cexSegs with
  | nil => exact absurd hc hne
  | cons a t => rfl

theorem cex_jobPath (i : ℕ) (hi : i < 1000) :
    jobPath cexEnv cexSegs "o" "mp3" i =
      some (splitOutputPath "o" "mp3" i "x") := by
  have hget : cexSegs[i]? = some ⟨(i : ℚ), (i : ℚ) + 1, "x"⟩ := by
    unfold cexSegs
    rw [List.getElem?_map, List.getElem?_range hi]
    rfl
  simp [jobPath, hget, cexEnv]

theorem cex_path998 : splitOutputPath "o" "mp3" 998 "x" = "o/999_x.mp3" := by
  decide

theorem cex_path999 : splitOutputPath "o" "mp3" 999 "x" = "o/1000_x.mp3" := by
  decide

theorem cex_path_lt :
    splitOutputPath "o" "mp3" 999 "x" < splitOutputPath "o" "mp3" 998 "x" := by
  rw [cex_path998, cex_path999, String.lt_iff_toList_lt]
  exact List.Lex.cons (List.Lex.cons (List.Lex.rel (by decide)))

set_option maxRecDepth 4000 in
/-- C3 counterexample.  With 1000 valid segments, all jobs succeeding and
futures completing in submission order, the returned list is NOT the
index-ordered list of output paths: the filename prefix of segment 1000
(`1000_`) sorts as a string before `999_`, so `sorted(output_files)`
breaks the index order once the zero-padding width 3 is exceeded. -/
theorem split_order_1000_cex :
    split cexEnv cexSegs "o" "mp3" ≠
      Except.ok (successPaths cexEnv 1000 cexSegs "o" "mp3") := by
  intro heq
  have hsplit : split cexEnv cexSegs "o" "mp3" =
      .ok (pysorted ((List.range 1000).filterMap
        (jobPath cexEnv cexSegs "o" "mp3"))) := by
    unfold split
    rw [show cexEnv.fileExists = true from rfl, cexSegs_ne_nil,
      show cexEnv.probe = Except.ok 1000 from rfl]
    simp only [Bool.true_eq_false, Bool.false_eq_true, if_false]
    rw [validSegments_cex, cexSegs_ne_nil]
    simp only [Bool.false_eq_true, if_false]
    rw [show cexEnv.completion = List.range 1000 from rfl]
  have hSeq : successPaths cexEnv 1000 cexSegs "o" "mp3" =
      (List.range 1000).filterMap (jobPath cexEnv cexSegs "o" "mp3") := by
    unfold successPaths
    rw [validSegments_cex, cexSegs_length]
  rw [hsplit, hSeq] at heq
  have hpys := Except.ok.inj heq
  have hsorted : List.Sorted (fun a b => a ≤ b)
      ((List.range 1000).filterMap (jobPath cexEnv cexSegs "o" "mp3")) := by
    rw [← hpys]
    exact List.sorted_insertionSort _ _
  have hmap : (List.range 1000).filterMap (jobPath cexEnv cexSegs "o" "mp3") =
      (List.range 1000).map (fun i => splitOutputPath "o" "mp3" i "x") := by
    have hcongr := List.filterMap_congr
      (fun i hi => cex_jobPath i (List.mem_range.mp hi))
    rw [hcongr,
      show (fun i => some (splitOutputPath "o" "mp3" i "x")) =
        some ∘ (fun i => splitOutputPath "o" "mp3" i "x") from rfl,
      List.filterMap_eq_map]
  rw [hmap] at hsorted
  have hfin : (⟨998, by simp⟩ : Fin (((List.range 1000).map
      (fun i => splitOutputPath "o" "mp3" i "x")).length)) <
      ⟨999, by simp⟩ := by
    rw [Fin.mk_lt_mk]
    omega
  have hrel := hsorted.rel_get_of_lt hfin
  simp only [List.get_eq_getElem, List.getElem_map, List.getElem_range]
    at hrel
  exact absurd hrel (not_le.mpr cex_path_lt)

end AudioApp
